import Mathlib

/-!
Shallow embedding of `build-index-html.py`, a script that renders a PEP 503
style static index page for wheel files found in `target/wheels`, and proofs
of the specification claims about it.

File bytes are modelled as `List Nat` (each element a byte value), strings as
Lean `String`.  The filesystem is modelled as `Option (List DFile)`:
`none` means the fixed directory `target/wheels` does not exist, `some fs`
means it exists and holds the entries `fs`.
-/

/-- A file on disk: its name (the final path component) and its content
bytes, exactly the two things the script reads about a file. -/
structure DFile where
  name : String
  bytes : List Nat
deriving DecidableEq, Repr

/-- `leadsWith v s` is true when `v` is an initial run of `s`. -/
def leadsWith : List Char → List Char → Bool
  | [], _ => true
  | _ :: _, [] => false
  | a :: as, b :: bs => a == b && leadsWith as bs

/-- Python `v in s` on strings: contiguous-substring occurrence. -/
def occursIn : List Char → List Char → Bool
  | v, [] => v.isEmpty
  | v, c :: rest => leadsWith v (c :: rest) || occursIn v rest

/-- Python code-point comparison of strings (`a <= b`), lexicographic over
characters compared by code point; used by `sorted(...)` on paths sharing
the fixed directory part. -/
def lexLe : List Char → List Char → Bool
  | [], _ => true
  | _ :: _, [] => false
  | a :: as, b :: bs =>
    if a.toNat < b.toNat then true
    else if b.toNat < a.toNat then false
    else lexLe as bs

/-- Ordering of candidate files used by `sorted(...)`: all discovered paths
share the prefix `target/wheels/`, so path order is name order. -/
def nameLe (f g : DFile) : Bool := lexLe f.name.data g.name.data

/-- Stable insertion into a sorted list (keeps an earlier element before
later ones that compare equal), matching Python stable sorting. -/
def insertByName (a : DFile) : List DFile → List DFile
  | [] => [a]
  | b :: bs => if nameLe a b then a :: b :: bs else b :: insertByName a bs

/-- Stable sort by filename, matching Python `sorted` on the discovered
paths (any two stable sorts under the same total preorder agree). -/
def sortByName : List DFile → List DFile
  | [] => []
  | a :: as => insertByName a (sortByName as)

/-- `pathlib.Path("target/wheels").glob("*.whl")`: yields the directory
entries whose name ends in `.whl`.  `pathlib` glob checks `is_dir()` on the
base directory first and returns an empty iterator when it does not exist,
so the missing-directory case (`none`) yields no candidates rather than an
error. -/
def globWhl (dir : Option (List DFile)) : List DFile :=
  match dir with
  | none => []
  | some fs => fs.filter (fun f => leadsWith (List.reverse ".whl".data) (List.reverse f.name.data))

/-- The discovered candidate files in the order the script iterates them:
`sorted(pathlib.Path("target/wheels").glob("*.whl"))`. -/
def sortedWhl (dir : Option (List DFile)) : List DFile :=
  sortByName (globWhl dir)

/-- The static release table, in Python dict insertion order. -/
def RELEASES : List (String × String) :=
  [("oc-v0.16.0-dev0", "0.16.0.dev0"),
   ("oc-v0.22.0-dev0", "0.22.0.dev0"),
   ("oc-v0.14.0", "0.14.0")]

/-- `[k for k, v in RELEASES.items() if v in f.name][0]` as a partial
lookup: the first release tag whose version substring occurs in the
filename, `none` when the comprehension is empty (where Python raises
IndexError). -/
def matchRelease (name : String) : Option String :=
  ((RELEASES.filter (fun kv => occursIn kv.2.data name.data)).head?).map Prod.fst

/-! ## SHA-256 (`hashlib.sha256(...).hexdigest()`)

A direct embedding of FIPS 180-4 SHA-256 over byte lists, with 32-bit words
as `Nat` reduced modulo `2 ^ 32`. -/

/-- `2 ^ 32`, the word modulus. -/
def M32 : Nat := 4294967296

/-- Right rotation of a 32-bit word. -/
def rotr (x n : Nat) : Nat := ((x >>> n) ||| (x <<< (32 - n))) % M32

/-- Bitwise complement of a 32-bit word. -/
def bnot32 (x : Nat) : Nat := x ^^^ 4294967295

/-- SHA-256 choice function. -/
def ch32 (x y z : Nat) : Nat := (x &&& y) ^^^ (bnot32 x &&& z)

/-- SHA-256 majority function. -/
def maj32 (x y z : Nat) : Nat := (x &&& y) ^^^ (x &&& z) ^^^ (y &&& z)

/-- SHA-256 Σ0. -/
def bigSigma0 (x : Nat) : Nat := rotr x 2 ^^^ rotr x 13 ^^^ rotr x 22

/-- SHA-256 Σ1. -/
def bigSigma1 (x : Nat) : Nat := rotr x 6 ^^^ rotr x 11 ^^^ rotr x 25

/-- SHA-256 σ0. -/
def smallSigma0 (x : Nat) : Nat := rotr x 7 ^^^ rotr x 18 ^^^ (x >>> 3)

/-- SHA-256 σ1. -/
def smallSigma1 (x : Nat) : Nat := rotr x 17 ^^^ rotr x 19 ^^^ (x >>> 10)

/-- The 64 SHA-256 round constants (decimal rendering of the FIPS 180-4
table, first 32 bits of the fractional parts of the cube roots of the
first 64 primes). -/
def K256 : List Nat :=
  [1116352408, 1899447441, 3049323471, 3921009573,
   961987163, 1508970993, 2453635748, 2870763221,
   3624381080, 310598401, 607225278, 1426881987,
   1925078388, 2162078206, 2614888103, 3248222580,
   3835390401, 4022224774, 264347078, 604807628,
   770255983, 1249150122, 1555081692, 1996064986,
   2554220882, 2821834349, 2952996808, 3210313671,
   3336571891, 3584528711, 113926993, 338241895,
   666307205, 773529912, 1294757372, 1396182291,
   1695183700, 1986661051, 2177026350, 2456956037,
   2730485921, 2820302411, 3259730800, 3345764771,
   3516065817, 3600352804, 4094571909, 275423344,
   430227734, 506948616, 659060556, 883997877,
   958139571, 1322822218, 1537002063, 1747873779,
   1955562222, 2024104815, 2227730452, 2361852424,
   2428436474, 2756734187, 3204031479, 3329325298]

/-- The SHA-256 initial hash value (decimal rendering). -/
def initH256 : List Nat :=
  [1779033703, 3144134277, 1013904242, 2773480762,
   1359893119, 2600822924, 528734635, 1541459225]

/-- The 8 big-endian bytes of the 64-bit message bit length. -/
def lenBytes (n : Nat) : List Nat :=
  [(n >>> 56) % 256, (n >>> 48) % 256, (n >>> 40) % 256, (n >>> 32) % 256,
   (n >>> 24) % 256, (n >>> 16) % 256, (n >>> 8) % 256, n % 256]

/-- SHA-256 padding: append `0x80`, zero bytes up to 56 mod 64, then the
bit length, yielding a whole number of 64-byte blocks. -/
def padMsg (msg : List Nat) : List Nat :=
  msg ++ 128 :: List.replicate ((64 + 56 - (msg.length + 1) % 64) % 64) 0
      ++ lenBytes (8 * msg.length)

/-- Big-endian 4-byte groups to 32-bit words. -/
def bytesToWords : List Nat → List Nat
  | b0 :: b1 :: b2 :: b3 :: rest =>
    (((b0 * 256 + b1) * 256 + b2) * 256 + b3) :: bytesToWords rest
  | _ => []

/-- Split into 64-byte blocks (fuel-driven so that it computes by kernel
reduction; the fuel `l.length` always suffices). -/
def chunksAux : Nat → List Nat → List (List Nat)
  | 0, _ => []
  | _, [] => []
  | n + 1, c :: rest => ((c :: rest).take 64) :: chunksAux n ((c :: rest).drop 64)

/-- Split a padded message into its 64-byte blocks. -/
def chunk64 (l : List Nat) : List (List Nat) := chunksAux l.length l

/-- Extend the 16-word message schedule by `n` further words. -/
def extendLoop (w : List Nat) : Nat → List Nat
  | 0 => w
  | n + 1 =>
    let t := w.length
    extendLoop
      (w ++ [(smallSigma1 (w.getD (t - 2) 0) + w.getD (t - 7) 0
              + smallSigma0 (w.getD (t - 15) 0) + w.getD (t - 16) 0) % M32])
      n

/-- One SHA-256 compression round on the 8-word state. -/
def round256 (st : List Nat) (kw : Nat × Nat) : List Nat :=
  match st with
  | [a, b, c, d, e, f, g, h] =>
    let t1 := (h + bigSigma1 e + ch32 e f g + kw.1 + kw.2) % M32
    let t2 := (bigSigma0 a + maj32 a b c) % M32
    [(t1 + t2) % M32, a, b, c, (d + t1) % M32, e, f, g]
  | _ => st

/-- Process one 64-byte block. -/
def processBlock (h : List Nat) (block : List Nat) : List Nat :=
  let w := extendLoop (bytesToWords block) 48
  let st := (K256.zip w).foldl round256 h
  List.zipWith (fun x y => (x + y) % M32) h st

/-- 32-bit words back to big-endian bytes. -/
def wordsToBytes (ws : List Nat) : List Nat :=
  ws.foldr (fun w acc => (w >>> 24) % 256 :: (w >>> 16) % 256 :: (w >>> 8) % 256 :: w % 256 :: acc) []

/-- The 32 digest bytes of SHA-256 of a byte list. -/
def sha256digest (msg : List Nat) : List Nat :=
  wordsToBytes ((chunk64 (padMsg msg)).foldl processBlock initH256)

/-- The lowercase hex digit of a value below 16. -/
def hexDigitL (m : Nat) : Char :=
  if m < 10 then Char.ofNat (48 + m) else Char.ofNat (87 + m)

/-- One lowercase hex digit (of the low 4 bits). -/
def hexLowerChar (n : Nat) : Char := hexDigitL (n % 16)

/-- Concatenation of the lists produced for each element. -/
def concatMap (f : α → List β) : List α → List β
  | [] => []
  | a :: as => f a ++ concatMap f as

/-- Two lowercase hex digits of one byte. -/
def byteHexChars (b : Nat) : List Char := [hexLowerChar (b / 16), hexLowerChar (b % 16)]

/-- `hashlib.sha256(bytes).hexdigest()`: the digest as lowercase hex. -/
def sha256hex (msg : List Nat) : String := ⟨concatMap byteHexChars (sha256digest msg)⟩

/-! ## `urllib.parse.quote` (default `safe="/"`) -/

/-- UTF-8 encoding of one character. -/
def utf8EncodeChar (c : Char) : List Nat :=
  let n := c.toNat
  if n < 128 then [n]
  else if n < 2048 then [192 + n / 64, 128 + n % 64]
  else if n < 65536 then [224 + n / 4096, 128 + (n / 64) % 64, 128 + n % 64]
  else [240 + n / 262144, 128 + (n / 4096) % 64, 128 + (n / 64) % 64, 128 + n % 64]

/-- UTF-8 encoding of a character list. -/
def utf8Encode (cs : List Char) : List Nat := concatMap utf8EncodeChar cs

/-- Bytes `quote` leaves intact: `_ALWAYS_SAFE` (ASCII letters, digits,
`_.-~`) plus the default `safe` character `/`. -/
def isQuoteSafe (b : Nat) : Bool :=
  (65 ≤ b && b ≤ 90) || (97 ≤ b && b ≤ 122) || (48 ≤ b && b ≤ 57)
    || b == 95 || b == 46 || b == 45 || b == 126 || b == 47

/-- The uppercase hex digit of a value below 16. -/
def hexDigitU (m : Nat) : Char :=
  if m < 10 then Char.ofNat (48 + m) else Char.ofNat (55 + m)

/-- One uppercase hex digit (of the low 4 bits). -/
def hexUpperChar (n : Nat) : Char := hexDigitU (n % 16)

/-- The percent character. -/
def percentChar : Char := Char.ofNat 37

/-- `quote` of one byte: kept verbatim when safe, else `%XX` uppercase. -/
def quoteByte (b : Nat) : List Char :=
  if isQuoteSafe b then [Char.ofNat b]
  else [percentChar, hexUpperChar (b / 16), hexUpperChar (b % 16)]

/-- `urllib.parse.quote(s)`: percent-encode the UTF-8 bytes of `s`,
keeping the safe bytes. -/
def quote (s : String) : String := ⟨concatMap quoteByte (utf8Encode s.data)⟩

/-- Value of a hex digit character, upper or lower case. -/
def hexVal (c : Char) : Option Nat :=
  let n := c.toNat
  if 48 ≤ n && n ≤ 57 then some (n - 48)
  else if 65 ≤ n && n ≤ 70 then some (n - 55)
  else if 97 ≤ n && n ≤ 102 then some (n - 87)
  else none

/-- Standard percent-decoding of an ASCII character list back to bytes:
`%XY` becomes one byte, any other character its own code point. -/
def percentDecode : List Char → Option (List Nat)
  | [] => some []
  | c :: rest =>
    if c = percentChar then
      match rest with
      | a :: b :: rest2 =>
        match hexVal a, hexVal b with
        | some ha, some hb => (percentDecode rest2).map (fun t => (16 * ha + hb) :: t)
        | _, _ => none
      | _ => none
    else (percentDecode rest).map (fun t => c.toNat :: t)

/-! ## `html.escape` (with `quote=True`) -/

/-- Tail of the entity `&amp;`. -/
def entAmp : List Char := ['a', 'm', 'p', ';']

/-- Tail of the entity `&lt;`. -/
def entLt : List Char := ['l', 't', ';']

/-- Tail of the entity `&gt;`. -/
def entGt : List Char := ['g', 't', ';']

/-- Tail of the entity `&quot;`. -/
def entQuot : List Char := ['q', 'u', 'o', 't', ';']

/-- Tail of the entity `&#x27;`. -/
def entApos : List Char := ['#', 'x', '2', '7', ';']

/-- `html.escape` of one character (`&`, `<`, `>`, `"` and the apostrophe,
code 39, are replaced by entities; the `&` replacement happens first in the
source so the per-character map is equivalent). -/
def escapeCharL (c : Char) : List Char :=
  if c = '&' then '&' :: entAmp
  else if c = '<' then '&' :: entLt
  else if c = '>' then '&' :: entGt
  else if c = '"' then '&' :: entQuot
  else if c = Char.ofNat 39 then '&' :: entApos
  else [c]

/-- `html.escape(s, quote=True)`. -/
def htmlEscape (s : String) : String := ⟨concatMap escapeCharL s.data⟩

/-- Inverse of `htmlEscape`: folds the five entities back to their
characters and keeps everything else (fuel-driven recursion; the fuel
`l.length` always suffices since each step consumes at least one
character). -/
def htmlUnescapeAux : Nat → List Char → List Char
  | 0, rest => rest
  | _, [] => []
  | fuel + 1, c :: rest =>
    if c = '&' then
      if leadsWith entAmp rest then '&' :: htmlUnescapeAux fuel (rest.drop 4)
      else if leadsWith entLt rest then '<' :: htmlUnescapeAux fuel (rest.drop 3)
      else if leadsWith entGt rest then '>' :: htmlUnescapeAux fuel (rest.drop 3)
      else if leadsWith entQuot rest then '"' :: htmlUnescapeAux fuel (rest.drop 5)
      else if leadsWith entApos rest then Char.ofNat 39 :: htmlUnescapeAux fuel (rest.drop 5)
      else '&' :: htmlUnescapeAux fuel rest
    else c :: htmlUnescapeAux fuel rest

/-- String form of the unescaper. -/
def htmlUnescape (s : String) : String := ⟨htmlUnescapeAux s.data.length s.data⟩

/-! ## The page pipeline -/

/-- Everything of `TEMPLATE` before the `links` placeholder. -/
def TPL_PRE : String :=
  "\n<!DOCTYPE html>\n<html>\n  <head>\n    <meta name=\"pypi:repository-version\" content=\"1.0\">\n    <title>Links for tantivy_oc_fork</title>\n  </head>\n</html>\n<body>\n  <h1>Links for tantivy_oc_fork</h1>\n  "

/-- Everything of `TEMPLATE` after the `links` placeholder. -/
def TPL_POST : String := "\n</body>\n</html>\n"

/-- `TEMPLATE.format(links=...)`. -/
def TEMPLATE (links : String) : String := TPL_PRE ++ links ++ TPL_POST

/-- The fixed part of `DOWNLOAD_BASE_URL_TEMPLATE` before the release tag. -/
def BASEURL : String := "https://github.com/opencollector/tantivy-py/releases/download/"

/-- `DOWNLOAD_BASE_URL_TEMPLATE.format(release=quote(release), file=quote(f.name), digest=quote(hexdigest))`. -/
def urlFor (release : String) (f : DFile) : String :=
  BASEURL ++ quote release ++ "/" ++ quote f.name ++ "#sha256=" ++ quote (sha256hex f.bytes)

/-- `LINK_TEMPLATE.format(url=..., name=...)`. -/
def LINK (url nm : String) : String := "<a href=\"" ++ url ++ "\">" ++ nm ++ "</a>"

/-- The failure the script can raise while building links: the IndexError
from `[...][0]` when no release's version substring occurs in a filename. -/
inductive BuildErr where
  | noMatch (fname : String)
deriving DecidableEq, Repr

/-- The anchor element emitted for one file once its release is known. -/
def anchorWith (release : String) (f : DFile) : String :=
  LINK (htmlEscape (urlFor release f)) (htmlEscape f.name)

/-- The anchor for a file under its matched release (unused default for the
unmatched case, which never reaches rendering). -/
def anchorOf (f : DFile) : String :=
  match matchRelease f.name with
  | some r => anchorWith r f
  | none => ""

/-- One step of the generator feeding `join`: match the release, then
render the anchor. -/
def linkFor (f : DFile) : Except BuildErr String :=
  match matchRelease f.name with
  | some r => .ok (anchorWith r f)
  | none => .error (.noMatch f.name)

/-- The links the `join` consumes, in iteration order, stopping at the
first failure exactly as the generator does. -/
def buildLinks : List DFile → Except BuildErr (List String)
  | [] => .ok []
  | f :: rest =>
    match linkFor f with
    | .error e => .error e
    | .ok s =>
      match buildLinks rest with
      | .error e => .error e
      | .ok ss => .ok (s :: ss)

/-- Python `sep.join(xs)`. -/
def joinSep (sep : String) : List String → String
  | [] => ""
  | [x] => x
  | x :: y :: rest => x ++ sep ++ joinSep sep (y :: rest)

/-- The whole script on a filesystem state: the text printed to stdout
(including the newline `print` appends) or the failure it aborts with. -/
def buildIndex (dir : Option (List DFile)) : Except BuildErr String :=
  (buildLinks (sortedWhl dir)).map (fun ls => TEMPLATE (joinSep "\n  " ls) ++ "\n")

/-- What actually reaches stdout: the page on success, nothing on an
uncaught exception (the traceback goes to stderr). -/
def stdoutOf (dir : Option (List DFile)) : String :=
  match buildIndex dir with
  | .ok s => s
  | .error _ => ""

/-- The process exit code: 0 after printing, 1 on an uncaught exception. -/
def exitCode (dir : Option (List DFile)) : Nat :=
  match buildIndex dir with
  | .ok _ => 0
  | .error _ => 1

/-! ## Sanity checks of the SHA-256 embedding against published test
vectors (NIST FIPS 180-4 examples and the empty message). -/

/-- SHA-256 of the empty message matches the published vector. -/
theorem sha256hex_empty :
    sha256hex [] = "e3b0c44298fc1c149afbf4c8996fb92427ae41e4649b934ca495991b7852b855" := by
  decide

/-- SHA-256 of the three bytes `abc` matches the published vector. -/
theorem sha256hex_abc :
    sha256hex [97, 98, 99] = "ba7816bf8f01cfea414140de5dae2223b00361a396177a9cb410ff61f20015ad" := by
  decide

/-! ## General list and character lemmas -/

theorem mem_concatMap {f : α → List β} {x : β} :
    ∀ {l : List α}, x ∈ concatMap f l ↔ ∃ a ∈ l, x ∈ f a := by
  intro l
  induction l with
  | nil => simp [concatMap]
  | cons a as ih => simp [concatMap, ih]

theorem concatMap_append (f : α → List β) (l₁ l₂ : List α) :
    concatMap f (l₁ ++ l₂) = concatMap f l₁ ++ concatMap f l₂ := by
  induction l₁ with
  | nil => rfl
  | cons a as ih => simp [concatMap, ih]

theorem char_toNat_lt (c : Char) : c.toNat < 1114112 := by
  have h := c.valid
  simp [UInt32.isValidChar, Nat.isValidChar] at h
  simp only [Char.toNat]
  omega

/-! ## Properties of `quote` (percent-encoding) -/

theorem utf8EncodeChar_lt (c : Char) : ∀ b ∈ utf8EncodeChar c, b < 256 := by
  intro b hb
  have hlt := char_toNat_lt c
  simp only [utf8EncodeChar] at hb
  split_ifs at hb <;> simp at hb <;> omega

theorem utf8Encode_lt (cs : List Char) : ∀ b ∈ utf8Encode cs, b < 256 := by
  intro b hb
  rw [utf8Encode, mem_concatMap] at hb
  obtain ⟨c, _, hbc⟩ := hb
  exact utf8EncodeChar_lt c b hbc

set_option maxRecDepth 4096 in
theorem safe_char_facts :
    ∀ b < 256, isQuoteSafe b = true →
      (Char.ofNat b ≠ percentChar ∧ (Char.ofNat b).toNat = b) := by
  decide

theorem hexDigitU_safe : ∀ m < 16, isQuoteSafe (hexDigitU m).toNat = true := by
  decide

theorem hexVal_hexDigitU : ∀ m < 16, hexVal (hexDigitU m) = some m := by
  decide

/-- Every character `quote` emits is either an always-safe byte or the
percent sign. -/
theorem quoteByte_chars {b : Nat} (hb : b < 256) :
    ∀ c ∈ quoteByte b, isQuoteSafe c.toNat = true ∨ c = percentChar := by
  intro c hc
  rw [quoteByte] at hc
  by_cases hs : isQuoteSafe b = true
  · rw [if_pos hs] at hc
    simp at hc
    subst hc
    exact Or.inl (by rw [(safe_char_facts b hb hs).2]; exact hs)
  · rw [if_neg hs] at hc
    simp [hexUpperChar] at hc
    rcases hc with hc | hc | hc
    · exact Or.inr hc
    · subst hc; exact Or.inl (hexDigitU_safe _ (Nat.mod_lt _ (by omega)))
    · subst hc; exact Or.inl (hexDigitU_safe _ (Nat.mod_lt _ (by omega)))

theorem quote_chars (s : String) :
    ∀ c ∈ (quote s).data, isQuoteSafe c.toNat = true ∨ c = percentChar := by
  intro c hc
  have : c ∈ concatMap quoteByte (utf8Encode s.data) := hc
  rw [mem_concatMap] at this
  obtain ⟨b, hb, hcb⟩ := this
  exact quoteByte_chars (utf8Encode_lt _ b hb) c hcb

/-- Safe output characters and the percent sign exclude a given code point
that is neither safe nor 37. -/
theorem quote_char_toNat_ne (s : String) {n : Nat}
    (hn : isQuoteSafe n = false) (hn37 : n ≠ 37) :
    ∀ c ∈ (quote s).data, c.toNat ≠ n := by
  intro c hc heq
  rcases quote_chars s c hc with h | h
  · rw [heq, hn] at h; cases h
  · rw [h] at heq
    exact hn37 (by simpa [percentChar] using heq.symm)

theorem percentDecode_cons_ne {c : Char} (h : ¬ c = percentChar) (t : List Char) :
    percentDecode (c :: t) = (percentDecode t).map (fun bs => c.toNat :: bs) := by
  rw [percentDecode.eq_def]
  simp [h]

theorem percentDecode_percent_hex {a b : Char} {ha hb : Nat}
    (h1 : hexVal a = some ha) (h2 : hexVal b = some hb) (t : List Char) :
    percentDecode (percentChar :: a :: b :: t) =
      (percentDecode t).map (fun bs => (16 * ha + hb) :: bs) := by
  rw [percentDecode.eq_def]
  simp [h1, h2]

/-- Percent-decoding is a left inverse of `quote` on the encoded bytes. -/
theorem percentDecode_quoteBytes :
    ∀ bs : List Nat, (∀ b ∈ bs, b < 256) →
      percentDecode (concatMap quoteByte bs) = some bs := by
  intro bs
  induction bs with
  | nil => intro _; rfl
  | cons b rest ih =>
    intro hlt
    have hb : b < 256 := hlt b (List.mem_cons_self b rest)
    have hrest := ih (fun x hx => hlt x (List.mem_cons_of_mem b hx))
    show percentDecode (quoteByte b ++ concatMap quoteByte rest) = some (b :: rest)
    by_cases hs : isQuoteSafe b = true
    · rw [quoteByte, if_pos hs, List.cons_append, List.nil_append]
      rw [percentDecode_cons_ne (safe_char_facts b hb hs).1, hrest]
      simp [(safe_char_facts b hb hs).2]
    · rw [quoteByte, if_neg hs]
      simp only [List.cons_append, List.nil_append]
      have h16a : b / 16 < 16 := by omega
      have h16b : b % 16 < 16 := Nat.mod_lt _ (by omega)
      have hua : hexVal (hexUpperChar (b / 16)) = some (b / 16) := by
        rw [hexUpperChar, Nat.mod_eq_of_lt h16a]
        exact hexVal_hexDigitU _ h16a
      have hub : hexVal (hexUpperChar (b % 16)) = some (b % 16) := by
        rw [hexUpperChar, Nat.mod_eq_of_lt (by omega)]
        exact hexVal_hexDigitU _ h16b
      rw [percentDecode_percent_hex hua hub, hrest]
      simp
      omega

/-- Percent-decoding `quote s` recovers exactly the UTF-8 bytes of `s`. -/
theorem percentDecode_quote (s : String) :
    percentDecode (quote s).data = some (utf8Encode s.data) :=
  percentDecode_quoteBytes (utf8Encode s.data) (utf8Encode_lt s.data)

/-! ## The digest is lowercase hex and survives `quote` unchanged -/

/-- The sixteen lowercase hex digit characters. -/
def hexLowerChars : List Char := "0123456789abcdef".data

theorem hexDigitL_mem : ∀ m < 16, hexDigitL m ∈ hexLowerChars := by
  decide

theorem sha256hex_chars (msg : List Nat) :
    ∀ c ∈ (sha256hex msg).data, c ∈ hexLowerChars := by
  intro c hc
  have : c ∈ concatMap byteHexChars (sha256digest msg) := hc
  rw [mem_concatMap] at this
  obtain ⟨b, _, hcb⟩ := this
  simp [byteHexChars, hexLowerChar] at hcb
  rcases hcb with h | h <;>
    (subst h; exact hexDigitL_mem _ (Nat.mod_lt _ (by omega)))

theorem hex_char_quote_id :
    ∀ c ∈ hexLowerChars,
      utf8EncodeChar c = [c.toNat] ∧ quoteByte c.toNat = [c] := by
  decide

theorem quote_of_hex_list :
    ∀ l : List Char, (∀ c ∈ l, c ∈ hexLowerChars) →
      concatMap quoteByte (utf8Encode l) = l := by
  intro l
  induction l with
  | nil => intro _; rfl
  | cons c t ih =>
    intro h
    have hc := hex_char_quote_id c (h c (List.mem_cons_self c t))
    have ht := ih (fun x hx => h x (List.mem_cons_of_mem c hx))
    show concatMap quoteByte (concatMap utf8EncodeChar (c :: t)) = c :: t
    rw [show concatMap utf8EncodeChar (c :: t)
          = utf8EncodeChar c ++ concatMap utf8EncodeChar t from rfl]
    rw [hc.1, concatMap_append]
    rw [show concatMap quoteByte [c.toNat] = quoteByte c.toNat ++ [] from rfl]
    rw [hc.2]
    simpa [utf8Encode] using ht

/-- `quote` leaves the hex digest unchanged: every digest character is an
always-safe byte. -/
theorem quote_sha256hex (msg : List Nat) : quote (sha256hex msg) = sha256hex msg := by
  have h := quote_of_hex_list (sha256hex msg).data (sha256hex_chars msg)
  show (⟨concatMap quoteByte (utf8Encode (sha256hex msg).data)⟩ : String) = sha256hex msg
  rw [h]

theorem baseurl_no_hash : ∀ c ∈ BASEURL.data, c.toNat ≠ 35 := by
  decide

/-! ## `htmlEscape` and its inverse -/

theorem leadsWith_append (p x : List Char) : leadsWith p (p ++ x) = true := by
  induction p with
  | nil => rfl
  | cons a as ih => simp [leadsWith, ih]

/-- Unescaping an escaped text recovers it exactly, given enough fuel. -/
theorem htmlUnescapeAux_escape (cs : List Char) :
    ∀ fuel, (concatMap escapeCharL cs).length ≤ fuel →
      htmlUnescapeAux fuel (concatMap escapeCharL cs) = cs := by
  induction cs with
  | nil => intro fuel _; cases fuel <;> rfl
  | cons c cs ih =>
    intro fuel hf
    by_cases h1 : c = '&'
    · subst h1
      have he : concatMap escapeCharL ('&' :: cs) = '&' :: (entAmp ++ concatMap escapeCharL cs) := by
        simp [concatMap, escapeCharL, entAmp]
      rw [he] at hf ⊢
      cases fuel with
      | zero => simp at hf
      | succ f =>
        simp only [htmlUnescapeAux, if_pos rfl]
        rw [if_pos (leadsWith_append entAmp _)]
        rw [show List.drop 4 (entAmp ++ concatMap escapeCharL cs) = concatMap escapeCharL cs from
          List.drop_left entAmp (concatMap escapeCharL cs)]
        rw [ih f (by simp [entAmp] at hf ⊢; omega)]
        simp
    · by_cases h2 : c = '<'
      · subst h2
        have he : concatMap escapeCharL ('<' :: cs) = '&' :: (entLt ++ concatMap escapeCharL cs) := by
          simp [concatMap, escapeCharL, entLt]
        rw [he] at hf ⊢
        cases fuel with
        | zero => simp at hf
        | succ f =>
          simp only [htmlUnescapeAux, if_pos rfl]
          rw [show leadsWith entAmp (entLt ++ concatMap escapeCharL cs) = false from by
            simp [entAmp, entLt, leadsWith]]
          rw [if_pos (leadsWith_append entLt _)]
          simp only [Bool.false_eq_true, if_false]
          rw [show List.drop 3 (entLt ++ concatMap escapeCharL cs) = concatMap escapeCharL cs from
            List.drop_left entLt (concatMap escapeCharL cs)]
          rw [ih f (by simp [entLt] at hf ⊢; omega)]
          simp
      · by_cases h3 : c = '>'
        · subst h3
          have he : concatMap escapeCharL ('>' :: cs) = '&' :: (entGt ++ concatMap escapeCharL cs) := by
            simp [concatMap, escapeCharL, entGt]
          rw [he] at hf ⊢
          cases fuel with
          | zero => simp at hf
          | succ f =>
            simp only [htmlUnescapeAux, if_pos rfl]
            rw [show leadsWith entAmp (entGt ++ concatMap escapeCharL cs) = false from by
              simp [entAmp, entGt, leadsWith]]
            rw [show leadsWith entLt (entGt ++ concatMap escapeCharL cs) = false from by
              simp [entLt, entGt, leadsWith]]
            rw [if_pos (leadsWith_append entGt _)]
            simp only [Bool.false_eq_true, if_false]
            rw [show List.drop 3 (entGt ++ concatMap escapeCharL cs) = concatMap escapeCharL cs from
              List.drop_left entGt (concatMap escapeCharL cs)]
            rw [ih f (by simp [entGt] at hf ⊢; omega)]
            simp
        · by_cases h4 : c = '"'
          · subst h4
            have he : concatMap escapeCharL ('"' :: cs) = '&' :: (entQuot ++ concatMap escapeCharL cs) := by
              simp [concatMap, escapeCharL, entQuot]
            rw [he] at hf ⊢
            cases fuel with
            | zero => simp at hf
            | succ f =>
              simp only [htmlUnescapeAux, if_pos rfl]
              rw [show leadsWith entAmp (entQuot ++ concatMap escapeCharL cs) = false from by
                simp [entAmp, entQuot, leadsWith]]
              rw [show leadsWith entLt (entQuot ++ concatMap escapeCharL cs) = false from by
                simp [entLt, entQuot, leadsWith]]
              rw [show leadsWith entGt (entQuot ++ concatMap escapeCharL cs) = false from by
                simp [entGt, entQuot, leadsWith]]
              rw [if_pos (leadsWith_append entQuot _)]
              simp only [Bool.false_eq_true, if_false]
              rw [show List.drop 5 (entQuot ++ concatMap escapeCharL cs) = concatMap escapeCharL cs from
                List.drop_left entQuot (concatMap escapeCharL cs)]
              rw [ih f (by simp [entQuot] at hf ⊢; omega)]
              simp
          · by_cases h5 : c = Char.ofNat 39
            · subst h5
              have he : concatMap escapeCharL (Char.ofNat 39 :: cs)
                  = '&' :: (entApos ++ concatMap escapeCharL cs) := by
                simp [concatMap, escapeCharL, entApos]
              rw [he] at hf ⊢
              cases fuel with
              | zero => simp at hf
              | succ f =>
                simp only [htmlUnescapeAux, if_pos rfl]
                rw [show leadsWith entAmp (entApos ++ concatMap escapeCharL cs) = false from by
                  simp [entAmp, entApos, leadsWith]]
                rw [show leadsWith entLt (entApos ++ concatMap escapeCharL cs) = false from by
                  simp [entLt, entApos, leadsWith]]
                rw [show leadsWith entGt (entApos ++ concatMap escapeCharL cs) = false from by
                  simp [entGt, entApos, leadsWith]]
                rw [show leadsWith entQuot (entApos ++ concatMap escapeCharL cs) = false from by
                  simp [entQuot, entApos, leadsWith]]
                rw [if_pos (leadsWith_append entApos _)]
                simp only [Bool.false_eq_true, if_false]
                rw [show List.drop 5 (entApos ++ concatMap escapeCharL cs) = concatMap escapeCharL cs from
                  List.drop_left entApos (concatMap escapeCharL cs)]
                rw [ih f (by simp [entApos] at hf ⊢; omega)]
                simp
            · have he : concatMap escapeCharL (c :: cs) = c :: concatMap escapeCharL cs := by
                simp [concatMap, escapeCharL, h1, h2, h3, h4, h5]
              rw [he] at hf ⊢
              cases fuel with
              | zero => simp at hf
              | succ f =>
                simp only [htmlUnescapeAux, if_neg h1]
                rw [ih f (by simp at hf ⊢; omega)]

theorem char_eq_of_toNat_eq {c d : Char} (h : c.toNat = d.toNat) : c = d := by
  have h1 := Char.ofNat_toNat c
  rw [h] at h1
  rw [Char.ofNat_toNat] at h1
  exact h1.symm

/-- The escaper's output never contains a raw `<` (60), `>` (62), `"` (34)
or apostrophe (39) character. -/
theorem htmlEscape_no_specials (s : String) :
    ∀ c ∈ (htmlEscape s).data,
      c.toNat ≠ 60 ∧ c.toNat ≠ 62 ∧ c.toNat ≠ 34 ∧ c.toNat ≠ 39 := by
  intro c hc
  have : c ∈ concatMap escapeCharL s.data := hc
  rw [mem_concatMap] at this
  obtain ⟨d, _, hcd⟩ := this
  rw [escapeCharL] at hcd
  split_ifs at hcd with g1 g2 g3 g4 g5
  · simp [entAmp] at hcd
    rcases hcd with rfl | rfl | rfl | rfl | rfl <;> decide
  · simp [entLt] at hcd
    rcases hcd with rfl | rfl | rfl | rfl <;> decide
  · simp [entGt] at hcd
    rcases hcd with rfl | rfl | rfl | rfl <;> decide
  · simp [entQuot] at hcd
    rcases hcd with rfl | rfl | rfl | rfl | rfl | rfl <;> decide
  · simp [entApos] at hcd
    rcases hcd with rfl | rfl | rfl | rfl | rfl | rfl <;> decide
  · simp at hcd
    subst hcd
    refine ⟨?_, ?_, ?_, ?_⟩ <;> intro hn
    · exact g2 (char_eq_of_toNat_eq (by rw [hn]; decide))
    · exact g3 (char_eq_of_toNat_eq (by rw [hn]; decide))
    · exact g4 (char_eq_of_toNat_eq (by rw [hn]; decide))
    · exact g5 (char_eq_of_toNat_eq (by rw [hn]; decide))

/-! ## Order lemmas for the filename sort -/

theorem lexLe_total (a b : List Char) : lexLe a b = true ∨ lexLe b a = true := by
  induction a generalizing b with
  | nil => left; rfl
  | cons x xs ih =>
    cases b with
    | nil => right; rfl
    | cons y ys =>
      simp only [lexLe]
      rcases Nat.lt_trichotomy x.toNat y.toNat with h | h | h
      · left; simp [h]
      · have h1 : ¬ x.toNat < y.toNat := by omega
        have h2 : ¬ y.toNat < x.toNat := by omega
        simp [h1, h2]
        exact ih ys
      · right; simp [h]

theorem lexLe_trans {a b c : List Char} (h1 : lexLe a b = true) (h2 : lexLe b c = true) :
    lexLe a c = true := by
  induction a generalizing b c with
  | nil => rfl
  | cons x xs ih =>
    cases b with
    | nil => simp [lexLe] at h1
    | cons y ys =>
      cases c with
      | nil => simp [lexLe] at h2
      | cons z zs =>
        simp only [lexLe] at h1 h2 ⊢
        split_ifs at h1 h2 ⊢ <;> try rfl
        all_goals try omega
        all_goals try simp_all
        exact ih h1 h2

theorem lexLe_antisymm {a b : List Char} (h1 : lexLe a b = true) (h2 : lexLe b a = true) :
    a = b := by
  induction a generalizing b with
  | nil =>
    cases b with
    | nil => rfl
    | cons y ys => simp [lexLe] at h2
  | cons x xs ih =>
    cases b with
    | nil => simp [lexLe] at h1
    | cons y ys =>
      simp only [lexLe] at h1 h2
      split_ifs at h1 h2 <;> try omega
      all_goals try simp_all
      rename_i hxy hyx
      have hx : x = y := char_eq_of_toNat_eq (by omega)
      exact ⟨hx, ih h1 h2⟩

theorem nameLe_total (f g : DFile) : nameLe f g = true ∨ nameLe g f = true :=
  lexLe_total f.name.data g.name.data

theorem nameLe_trans {f g h : DFile} (h1 : nameLe f g = true) (h2 : nameLe g h = true) :
    nameLe f h = true :=
  lexLe_trans h1 h2

theorem insertByName_perm (a : DFile) (l : List DFile) :
    (insertByName a l).Perm (a :: l) := by
  induction l with
  | nil => exact List.Perm.refl _
  | cons b bs ih =>
    simp only [insertByName]
    split_ifs with h
    · exact List.Perm.refl _
    · exact (ih.cons b).trans (List.Perm.swap a b bs)

theorem sortByName_perm (l : List DFile) : (sortByName l).Perm l := by
  induction l with
  | nil => exact List.Perm.refl _
  | cons a as ih => exact (insertByName_perm a (sortByName as)).trans (ih.cons a)

theorem pairwise_insertByName {a : DFile} {l : List DFile}
    (h : l.Pairwise (fun f g => nameLe f g = true)) :
    (insertByName a l).Pairwise (fun f g => nameLe f g = true) := by
  induction l with
  | nil => simp [insertByName]
  | cons b bs ih =>
    rcases h with - | ⟨hb, hbs⟩
    simp only [insertByName]
    split_ifs with hab
    · refine List.Pairwise.cons ?_ (List.Pairwise.cons hb hbs)
      intro x hx
      rcases List.mem_cons.1 hx with rfl | hxbs
      · exact hab
      · exact nameLe_trans hab (hb x hxbs)
    · have hba : nameLe b a = true := (nameLe_total a b).resolve_left hab
      refine List.Pairwise.cons ?_ (ih hbs)
      intro x hx
      rcases List.mem_cons.1 ((insertByName_perm a bs).mem_iff.1 hx) with rfl | hxbs
      · exact hba
      · exact hb x hxbs

theorem sortByName_pairwise (l : List DFile) :
    (sortByName l).Pairwise (fun f g => nameLe f g = true) := by
  induction l with
  | nil => simp [sortByName]
  | cons a as ih => exact pairwise_insertByName ih

/-! ## The link builder -/

theorem buildLinks_ok_of {l : List DFile}
    (h : ∀ f ∈ l, (matchRelease f.name).isSome = true) :
    buildLinks l = .ok (l.map anchorOf) := by
  induction l with
  | nil => rfl
  | cons f rest ih =>
    have hf := h f (List.mem_cons_self f rest)
    obtain ⟨r, hr⟩ := Option.isSome_iff_exists.1 hf
    have hrest := ih (fun x hx => h x (List.mem_cons_of_mem f hx))
    simp only [buildLinks, linkFor, hr, hrest, List.map_cons, anchorOf]

theorem buildLinks_ok_elim {l : List DFile} {ls : List String}
    (h : buildLinks l = .ok ls) :
    ls = l.map anchorOf ∧ ∀ f ∈ l, (matchRelease f.name).isSome = true := by
  induction l generalizing ls with
  | nil =>
    simp only [buildLinks] at h
    cases h
    exact ⟨rfl, by intro f hf; cases hf⟩
  | cons f rest ih =>
    simp only [buildLinks, linkFor] at h
    cases hm : matchRelease f.name with
    | none => rw [hm] at h; cases h
    | some r =>
      rw [hm] at h
      cases hb : buildLinks rest with
      | error e => rw [hb] at h; cases h
      | ok ss =>
        rw [hb] at h
        cases h
        obtain ⟨hss, hall⟩ := ih hb
        refine ⟨by simp [hss, anchorOf, hm], ?_⟩
        intro x hx
        rcases List.mem_cons.1 hx with rfl | hxr
        · simp [hm]
        · exact hall x hxr

theorem buildLinks_error_of {l : List DFile}
    (h : ∃ f ∈ l, matchRelease f.name = none) :
    ∃ n, buildLinks l = .error (.noMatch n) := by
  induction l with
  | nil => obtain ⟨f, hf, -⟩ := h; cases hf
  | cons f rest ih =>
    cases hm : matchRelease f.name with
    | none => exact ⟨f.name, by simp [buildLinks, linkFor, hm]⟩
    | some r =>
      have hrest : ∃ x ∈ rest, matchRelease x.name = none := by
        obtain ⟨x, hx, hxn⟩ := h
        rcases List.mem_cons.1 hx with rfl | hxr
        · rw [hm] at hxn; cases hxn
        · exact ⟨x, hxr, hxn⟩
      obtain ⟨n, hn⟩ := ih hrest
      exact ⟨n, by simp [buildLinks, linkFor, hm, hn]⟩

theorem head?_filter_eq_find? {α : Type} (p : α → Bool) :
    ∀ l : List α, (l.filter p).head? = l.find? p := by
  intro l
  induction l with
  | nil => rfl
  | cons a as ih =>
    by_cases h : p a = true
    · simp [List.filter_cons, List.find?_cons, h]
    · simp only [List.filter_cons, List.find?_cons]
      rw [if_neg (by simp [h]), ih]
      simp [h]

theorem string_eq_of_data_eq {s t : String} (h : s.data = t.data) : s = t :=
  congrArg String.mk h

/-! ## The claims -/

/-- C1: for every file and release tag, the constructed download URL is a
prefix free of `#` (code 35) followed by the literal `#sha256=` and then
exactly `sha256hex` of that file's bytes, and that digest is rendered in
lowercase hex characters.  Re-hashing the referenced bytes therefore
reproduces the embedded digest. -/
theorem c1_digest_roundtrip (f : DFile) (r : String) :
    ∃ p : String,
      urlFor r f = p ++ "#sha256=" ++ sha256hex f.bytes
      ∧ (∀ c ∈ p.data, c.toNat ≠ 35)
      ∧ (∀ c ∈ (sha256hex f.bytes).data, c ∈ hexLowerChars) := by
  refine ⟨BASEURL ++ quote r ++ "/" ++ quote f.name, ?_, ?_, sha256hex_chars f.bytes⟩
  · rw [urlFor, quote_sha256hex]
  · intro c hc
    rw [String.data_append, String.data_append, String.data_append] at hc
    simp only [List.mem_append] at hc
    rcases hc with ((hc | hc) | hc) | hc
    · exact baseurl_no_hash c hc
    · exact quote_char_toNat_ne r (by decide) (by decide) c hc
    · simp at hc
      subst hc
      decide
    · exact quote_char_toNat_ne f.name (by decide) (by decide) c hc

/-- C2: when every candidate file matches some release entry, the script
prints the page whose link section has exactly one anchor per candidate
file, the candidate list being a permutation of the discovered files
arranged in lexicographic filename order. -/
theorem c2_anchors_sorted (dir : Option (List DFile))
    (h : ∀ f ∈ globWhl dir, (matchRelease f.name).isSome = true) :
    buildIndex dir = Except.ok (TEMPLATE (joinSep "\n  " ((sortedWhl dir).map anchorOf)) ++ "\n")
    ∧ (sortedWhl dir).Perm (globWhl dir)
    ∧ (sortedWhl dir).Pairwise (fun f g => nameLe f g = true) := by
  have hperm : (sortedWhl dir).Perm (globWhl dir) := sortByName_perm _
  have hall : ∀ f ∈ sortedWhl dir, (matchRelease f.name).isSome = true :=
    fun f hf => h f (hperm.subset hf)
  refine ⟨?_, hperm, sortByName_pairwise _⟩
  rw [buildIndex, buildLinks_ok_of hall]
  rfl

theorem c2_witness :
    (∀ f ∈ globWhl (some [⟨"tantivy_oc_fork-0.22.0.dev0-x.whl", [5]⟩,
                          ⟨"tantivy_oc_fork-0.14.0-y.whl", [9]⟩]),
        (matchRelease f.name).isSome = true)
    ∧ (buildIndex (some [⟨"tantivy_oc_fork-0.22.0.dev0-x.whl", [5]⟩,
                         ⟨"tantivy_oc_fork-0.14.0-y.whl", [9]⟩])
        = Except.ok (TEMPLATE (joinSep "\n  "
            ((sortedWhl (some [⟨"tantivy_oc_fork-0.22.0.dev0-x.whl", [5]⟩,
                               ⟨"tantivy_oc_fork-0.14.0-y.whl", [9]⟩])).map anchorOf)) ++ "\n")
       ∧ (sortedWhl (some [⟨"tantivy_oc_fork-0.22.0.dev0-x.whl", [5]⟩,
                           ⟨"tantivy_oc_fork-0.14.0-y.whl", [9]⟩])).Perm
            (globWhl (some [⟨"tantivy_oc_fork-0.22.0.dev0-x.whl", [5]⟩,
                            ⟨"tantivy_oc_fork-0.14.0-y.whl", [9]⟩]))
       ∧ (sortedWhl (some [⟨"tantivy_oc_fork-0.22.0.dev0-x.whl", [5]⟩,
                           ⟨"tantivy_oc_fork-0.14.0-y.whl", [9]⟩])).Pairwise
            (fun f g => nameLe f g = true)) :=
  ⟨by decide, c2_anchors_sorted _ (by decide)⟩

/-- C3: if some discovered candidate file matches no release entry, the
script aborts with the IndexError modelled by `BuildErr.noMatch`: nothing
reaches stdout and the exit code is nonzero. -/
theorem c3_unmatched_aborts (dir : Option (List DFile))
    (h : ∃ f ∈ globWhl dir, matchRelease f.name = none) :
    (∃ n, buildIndex dir = Except.error (BuildErr.noMatch n))
    ∧ stdoutOf dir = "" ∧ exitCode dir = 1 := by
  have hs : ∃ f ∈ sortedWhl dir, matchRelease f.name = none := by
    obtain ⟨f, hf, hn⟩ := h
    exact ⟨f, (sortByName_perm _).mem_iff.2 hf, hn⟩
  obtain ⟨n, hn⟩ := buildLinks_error_of hs
  have hb : buildIndex dir = Except.error (.noMatch n) := by
    rw [buildIndex, hn]
    rfl
  exact ⟨⟨n, hb⟩, by simp [stdoutOf, hb], by simp [exitCode, hb]⟩

theorem c3_witness :
    (∃ f ∈ globWhl (some [⟨"unknown-1.0.0.whl", []⟩]), matchRelease f.name = none)
    ∧ ((∃ n, buildIndex (some [⟨"unknown-1.0.0.whl", []⟩])
          = Except.error (BuildErr.noMatch n))
       ∧ stdoutOf (some [⟨"unknown-1.0.0.whl", []⟩]) = ""
       ∧ exitCode (some [⟨"unknown-1.0.0.whl", []⟩]) = 1) :=
  ⟨by decide, c3_unmatched_aborts _ (by decide)⟩

/-- C4 counterexample: with the input directory absent, the script does
not fail and does print a page — `pathlib` glob yields no entries for a
missing directory, so the claimed I/O abort never happens. -/
theorem c4_counterexample :
    (∀ e, buildIndex none ≠ Except.error e) ∧ stdoutOf none ≠ "" ∧ exitCode none = 0 := by
  refine ⟨?_, ?_, rfl⟩
  · intro e h
    rw [show buildIndex none = Except.ok (TEMPLATE "" ++ "\n") from rfl] at h
    cases h
  · decide

/-- C4 amended: if the fixed input directory does not exist, discovery
yields no candidates and the script prints the page with an empty link
section, exiting zero. -/
theorem c4_amended :
    buildIndex none = Except.ok (TEMPLATE "" ++ "\n") ∧ exitCode none = 0 :=
  ⟨rfl, rfl⟩

/-- C5: for every matched file the emitted anchor's URL is the fixed
template instantiated with the percent-encoded release tag, filename and
digest, and percent-decoding each encoded component recovers exactly its
UTF-8 bytes. -/
theorem c5_url_template (f : DFile) (r : String) (h : matchRelease f.name = some r) :
    linkFor f = Except.ok (LINK
        (htmlEscape (BASEURL ++ quote r ++ "/" ++ quote f.name
          ++ "#sha256=" ++ quote (sha256hex f.bytes)))
        (htmlEscape f.name))
    ∧ percentDecode (quote r).data = some (utf8Encode r.data)
    ∧ percentDecode (quote f.name).data = some (utf8Encode f.name.data)
    ∧ percentDecode (quote (sha256hex f.bytes)).data
        = some (utf8Encode (sha256hex f.bytes).data) := by
  refine ⟨?_, percentDecode_quote r, percentDecode_quote f.name,
    percentDecode_quote (sha256hex f.bytes)⟩
  simp only [linkFor, h]
  rfl

theorem c5_witness :
    matchRelease (DFile.name ⟨"tantivy_oc_fork-0.14.0-py3.whl", [7]⟩) = some "oc-v0.14.0"
    ∧ (linkFor ⟨"tantivy_oc_fork-0.14.0-py3.whl", [7]⟩ = Except.ok (LINK
        (htmlEscape (BASEURL ++ quote "oc-v0.14.0" ++ "/"
          ++ quote (DFile.name ⟨"tantivy_oc_fork-0.14.0-py3.whl", [7]⟩)
          ++ "#sha256=" ++ quote (sha256hex (DFile.bytes ⟨"tantivy_oc_fork-0.14.0-py3.whl", [7]⟩))))
        (htmlEscape (DFile.name ⟨"tantivy_oc_fork-0.14.0-py3.whl", [7]⟩)))
      ∧ percentDecode (quote "oc-v0.14.0").data = some (utf8Encode "oc-v0.14.0".data)
      ∧ percentDecode (quote (DFile.name ⟨"tantivy_oc_fork-0.14.0-py3.whl", [7]⟩)).data
          = some (utf8Encode (DFile.name ⟨"tantivy_oc_fork-0.14.0-py3.whl", [7]⟩).data)
      ∧ percentDecode (quote (sha256hex (DFile.bytes ⟨"tantivy_oc_fork-0.14.0-py3.whl", [7]⟩))).data
          = some (utf8Encode (sha256hex (DFile.bytes ⟨"tantivy_oc_fork-0.14.0-py3.whl", [7]⟩)).data)) :=
  ⟨by decide, c5_url_template ⟨"tantivy_oc_fork-0.14.0-py3.whl", [7]⟩ "oc-v0.14.0" (by decide)⟩

/-- C6: escaping is correct: unescaping the escaped text restores it, the
escaped text contains no raw `<`, `>`, `"` or apostrophe, and the
percent-encoded form contains no raw `&`, `<`, `"` or space and decodes
back to the original bytes. -/
theorem c6_escaping (s : String) :
    htmlUnescape (htmlEscape s) = s
    ∧ (∀ c ∈ (htmlEscape s).data,
        c.toNat ≠ 60 ∧ c.toNat ≠ 62 ∧ c.toNat ≠ 34 ∧ c.toNat ≠ 39)
    ∧ (∀ c ∈ (quote s).data,
        c.toNat ≠ 38 ∧ c.toNat ≠ 60 ∧ c.toNat ≠ 34 ∧ c.toNat ≠ 32)
    ∧ percentDecode (quote s).data = some (utf8Encode s.data) := by
  refine ⟨?_, htmlEscape_no_specials s, ?_, percentDecode_quote s⟩
  · show (⟨htmlUnescapeAux (htmlEscape s).data.length (htmlEscape s).data⟩ : String) = s
    rw [show (htmlEscape s).data = concatMap escapeCharL s.data from rfl]
    rw [htmlUnescapeAux_escape s.data _ (le_refl _)]
  · intro c hc
    exact ⟨quote_char_toNat_ne s (by decide) (by decide) c hc,
      quote_char_toNat_ne s (by decide) (by decide) c hc,
      quote_char_toNat_ne s (by decide) (by decide) c hc,
      quote_char_toNat_ne s (by decide) (by decide) c hc⟩

/-- C7: with no candidate files the script prints the fixed template with
an empty link section and exits zero. -/
theorem c7_empty_input (dir : Option (List DFile)) (h : globWhl dir = []) :
    buildIndex dir = Except.ok (TEMPLATE "" ++ "\n")
    ∧ stdoutOf dir = TEMPLATE "" ++ "\n"
    ∧ exitCode dir = 0 := by
  have hs : sortedWhl dir = [] := by
    rw [sortedWhl, h]
    rfl
  have hb : buildIndex dir = Except.ok (TEMPLATE "" ++ "\n") := by
    rw [buildIndex, hs]
    rfl
  exact ⟨hb, by simp [stdoutOf, hb], by simp [exitCode, hb]⟩

theorem c7_witness :
    globWhl (some [⟨"README.md", [1]⟩]) = []
    ∧ (buildIndex (some [⟨"README.md", [1]⟩]) = Except.ok (TEMPLATE "" ++ "\n")
       ∧ stdoutOf (some [⟨"README.md", [1]⟩]) = TEMPLATE "" ++ "\n"
       ∧ exitCode (some [⟨"README.md", [1]⟩]) = 0) :=
  ⟨by decide, c7_empty_input _ (by decide)⟩

/-- C8: when two or more release entries match a filename, the selection
is deterministically the first matching entry in table iteration order
(the head of the filtered table, i.e. `find?`). -/
theorem c8_first_match_wins (name : String)
    (h2 : 2 ≤ (RELEASES.filter (fun kv => occursIn kv.2.data name.data)).length)
    (kv : String × String)
    (hf : RELEASES.find? (fun kv => occursIn kv.2.data name.data) = some kv) :
    matchRelease name = some kv.1 := by
  rw [matchRelease, head?_filter_eq_find?, hf]
  rfl

theorem c8_witness :
    2 ≤ (RELEASES.filter
          (fun kv => occursIn kv.2.data "tantivy_oc_fork-0.16.0.dev0+0.14.0.whl".data)).length
    ∧ RELEASES.find? (fun kv => occursIn kv.2.data "tantivy_oc_fork-0.16.0.dev0+0.14.0.whl".data)
        = some ("oc-v0.16.0-dev0", "0.16.0.dev0")
    ∧ matchRelease "tantivy_oc_fork-0.16.0.dev0+0.14.0.whl" = some "oc-v0.16.0-dev0" :=
  ⟨by decide, by decide,
    c8_first_match_wins _ (by decide) ("oc-v0.16.0-dev0", "0.16.0.dev0") (by decide)⟩

/-- C9: every run either prints the complete page — all candidate files
matched, one anchor each — and exits zero, or prints nothing at all and
exits nonzero; no partial page exists. -/
theorem c9_all_or_nothing (dir : Option (List DFile)) :
    (stdoutOf dir = TEMPLATE (joinSep "\n  " ((sortedWhl dir).map anchorOf)) ++ "\n"
      ∧ (∀ f ∈ sortedWhl dir, (matchRelease f.name).isSome = true)
      ∧ exitCode dir = 0)
    ∨ (stdoutOf dir = "" ∧ exitCode dir = 1) := by
  cases hb : buildLinks (sortedWhl dir) with
  | ok ls =>
    obtain ⟨hls, hall⟩ := buildLinks_ok_elim hb
    left
    subst hls
    have hbi : buildIndex dir
        = Except.ok (TEMPLATE (joinSep "\n  " ((sortedWhl dir).map anchorOf)) ++ "\n") := by
      rw [buildIndex, hb]
      rfl
    exact ⟨by simp [stdoutOf, hbi], hall, by simp [exitCode, hbi]⟩
  | error e =>
    right
    have hbi : buildIndex dir = Except.error e := by
      rw [buildIndex, hb]
      rfl
    exact ⟨by simp [stdoutOf, hbi], by simp [exitCode, hbi]⟩

/-- C10: the output depends only on which (name, bytes) pairs populate the
directory, not on the order the filesystem lists them: for directories
with no duplicate filenames, any listing permutation produces the same
result. -/
theorem c10_deterministic (d1 d2 : List DFile) (hperm : d1.Perm d2)
    (hnd : (d1.map DFile.name).Nodup) :
    buildIndex (some d1) = buildIndex (some d2) := by
  suffices hs : sortedWhl (some d1) = sortedWhl (some d2) by
    rw [buildIndex, buildIndex, hs]
  have hg : (globWhl (some d1)).Perm (globWhl (some d2)) := by
    show (List.filter (fun f => leadsWith (List.reverse ".whl".data) (List.reverse f.name.data)) d1).Perm
      (List.filter (fun f => leadsWith (List.reverse ".whl".data) (List.reverse f.name.data)) d2)
    exact hperm.filter _
  have hsp : (sortedWhl (some d1)).Perm (sortedWhl (some d2)) :=
    (sortByName_perm _).trans (hg.trans (sortByName_perm _).symm)
  have hnd1 : ((sortedWhl (some d1)).map DFile.name).Nodup := by
    have hsub : (globWhl (some d1)).Sublist d1 := List.filter_sublist d1
    have h1 : ((globWhl (some d1)).map DFile.name).Nodup := (hsub.map DFile.name).nodup hnd
    exact ((sortByName_perm (globWhl (some d1))).map DFile.name).nodup_iff.2 h1
  have hnd2 : ((sortedWhl (some d2)).map DFile.name).Nodup :=
    ((hsp.map DFile.name).nodup_iff).1 hnd1
  have hP1 : (sortedWhl (some d1)).Pairwise
      (fun f g => nameLe f g = true ∧ f.name ≠ g.name) :=
    (sortByName_pairwise _).and (List.pairwise_map.mp hnd1)
  have hP2 : (sortedWhl (some d2)).Pairwise
      (fun f g => nameLe f g = true ∧ f.name ≠ g.name) :=
    (sortByName_pairwise _).and (List.pairwise_map.mp hnd2)
  haveI : IsAntisymm DFile (fun f g => nameLe f g = true ∧ f.name ≠ g.name) := by
    constructor
    intro a b hab hba
    exact absurd (string_eq_of_data_eq (lexLe_antisymm hab.1 hba.1)) hab.2
  exact List.eq_of_perm_of_sorted hsp hP1 hP2

theorem c10_witness :
    ([⟨"a-0.14.0.whl", [1]⟩, ⟨"b-0.22.0.dev0.whl", [2]⟩] : List DFile).Perm
        [⟨"b-0.22.0.dev0.whl", [2]⟩, ⟨"a-0.14.0.whl", [1]⟩]
    ∧ (([⟨"a-0.14.0.whl", [1]⟩, ⟨"b-0.22.0.dev0.whl", [2]⟩] : List DFile).map DFile.name).Nodup
    ∧ buildIndex (some [⟨"a-0.14.0.whl", [1]⟩, ⟨"b-0.22.0.dev0.whl", [2]⟩])
        = buildIndex (some [⟨"b-0.22.0.dev0.whl", [2]⟩, ⟨"a-0.14.0.whl", [1]⟩]) :=
  ⟨by decide, by decide, c10_deterministic _ _ (by decide) (by decide)⟩
